import Mathlib

set_option maxHeartbeats 1000000

/-!
Verification of the optics core of the python-lenses repository
(src/lenses/optics/base.py), shallowly embedded in Lean 4.

Python values are modelled by the dynamic universe `Val`; every optic
operates on `Val`.  Raised exceptions are modelled by `Except Err`.
The van Laarhoven function `LensLike.func` becomes `Optic.func`, the
mode dispatcher (Functorisor) becomes the structure `Functorisor`, and
the class hierarchy of `base.py` becomes the `isinstance` tables below.
-/

/-- The nine capability tags of the kind lattice (base.py docstring and
`LensLike.kind`). -/
inductive Kind where
  | fold | setter | getter | traversal | lens | review | prism | isomorphism | equality
deriving DecidableEq, Repr, Fintype

/-- The concrete leaf classes of base.py that optics in this model can
have (Equality is never constructed by the library; TrivialIso and
ErrorIso behave as Isomorphism for isinstance purposes). -/
inductive Cls where
  | cGetter | cLens | cReview | cPrism | cIso
deriving DecidableEq, Repr, Fintype

/-- The isinstance table of base.py: `clsIsKind c k` is true when an
instance of leaf class `c` is a Python instance of the kind class `k`.
Getter(Fold); Lens(Getter, Traversal); Traversal(Fold, Setter);
Review(LensLike); Prism(Traversal, Review); Isomorphism(Lens, Prism). -/
def clsIsKind : Cls → Kind → Bool
  | .cGetter, .fold => true
  | .cGetter, .getter => true
  | .cGetter, _ => false
  | .cLens, .fold => true
  | .cLens, .setter => true
  | .cLens, .getter => true
  | .cLens, .traversal => true
  | .cLens, .lens => true
  | .cLens, _ => false
  | .cReview, .review => true
  | .cReview, _ => false
  | .cPrism, .fold => true
  | .cPrism, .setter => true
  | .cPrism, .traversal => true
  | .cPrism, .review => true
  | .cPrism, .prism => true
  | .cPrism, _ => false
  | .cIso, .equality => false
  | .cIso, _ => true

/-- Dynamic Python values: integers, strings, lists, and the Maybe
objects from lenses.maybe (`Nothing()`, `Just(v)`). -/
inductive Val where
  | vInt (n : Int)
  | vStr (s : String)
  | vList (l : List Val)
  | vNothing
  | vJust (v : Val)

/-- Exceptions raised by the library, with their messages. -/
inductive Err where
  | typeError (msg : String)
  | valueError (msg : String)
  | runtimeError (msg : String)
  | unimplError (msg : String)
  | attrError
deriving DecidableEq, Repr

/-- Modelled from the spec: the two functor wrappers of lenses.const and
lenses.identity (const.py and identity.py are not under src/).  A
ConstLike value ignores fmap, an IdentityLike value applies it. -/
inductive FVal where
  | const (v : Val)
  | identity (v : Val)

/-- The `unwrap` method shared by Const and Identity. -/
def FVal.unwrap : FVal → Val
  | .const v => v
  | .identity v => v

/-- Modelled from the spec: `typeclass.fmap` on the two functor wrappers
(typeclass.py is not under src/): ConstLike is left unchanged,
IdentityLike applies the function. -/
def fmapF : FVal → (Val → Val) → FVal
  | .const v, _ => .const v
  | .identity v, g => .identity (g v)

/-- Modelled from the spec: `typeclass.fmap` on dynamic payloads, as
used by `Getter.func` on the unwrapped functor contents (typeclass.py
is not under src/).  Lists map elementwise, Maybe maps over Just, and
any value without an fmap instance raises. -/
def dynFmap : Val → (Val → Val) → Except Err Val
  | .vList l, g => .ok (.vList (l.map g))
  | .vJust a, g => .ok (.vJust (g a))
  | .vNothing, _ => .ok .vNothing
  | _, _ => .error .attrError

/-- Modelled from the spec: the mode dispatcher of functorisor.py
(not under src/).  It packages the short-circuit behaviour `pure` and
the one-argument call behaviour `app` behind one object (spec section
4.2). -/
structure Functorisor where
  pure : Val → FVal
  app : Val → Except Err FVal

/-- Modelled from the spec: the composition operator of the mode
dispatcher, as used by `ComposedLens.func` via `res.update(lens.func)`:
the updated dispatcher keeps the same `pure` and feeds the previous
dispatcher to the supplied stage. -/
def Functorisor.update (f : Functorisor)
    (fn : Functorisor → Val → Except Err FVal) : Functorisor :=
  ⟨f.pure, fun s => fn f s⟩

/-- The optics of base.py that the library constructs: Getter, Lens,
Review, Prism, Isomorphism, TrivialIso, ErrorIso and ComposedLens.
An ErrorIso (base.py lines 467 to 506, reachable through the ui.py
`error_` constructor) subclasses Isomorphism but stores only an
exception and an optional message template and no forwards or
backwards functions; `exception` here is the state indexed exception
it raises on evaluation (the raw exception when the message is None,
or the exception class applied to `message.format(state)`
otherwise). -/
inductive Optic where
  | getter (get : Val → Val)
  | lens (get : Val → Val) (put : Val → Val → Val)
  | review (pack : Val → Val)
  | prism (unpack : Val → Val) (pack : Val → Val)
  | iso (forwards : Val → Val) (backwards : Val → Val)
  | trivialIso
  | errorIso (exception : Val → Err)
  | composed (lenses : List Optic)

mutual
/-- `LensLike._is_kind` of base.py: isinstance for the leaves, and for
ComposedLens the overridden all-sublenses check (base.py line 463). -/
def isKind : Optic → Kind → Bool
  | .getter _, k => clsIsKind .cGetter k
  | .lens _ _, k => clsIsKind .cLens k
  | .review _, k => clsIsKind .cReview k
  | .prism _ _, k => clsIsKind .cPrism k
  | .iso _ _, k => clsIsKind .cIso k
  | .trivialIso, k => clsIsKind .cIso k
  | .errorIso _, k => clsIsKind .cIso k
  | .composed ls, k => isKindAll ls k

/-- Conjunction of `isKind` over a list of sublenses. -/
def isKindAll : List Optic → Kind → Bool
  | [], _ => true
  | l :: rest, k => isKind l k && isKindAll rest k
end

/-- The scan order of `LensLike.kind` (base.py lines 175 to 177). -/
def scanKinds : List Kind :=
  [.equality, .isomorphism, .prism, .review, .lens, .traversal, .getter, .setter, .fold]

/-- `LensLike.kind`: the first kind in scan order that the optic
satisfies, or `none` (the Python `None` kind). -/
def kindOf (o : Optic) : Option Kind :=
  scanKinds.find? (fun k => isKind o k)

/-- `ComposedLens._filter_lenses`: drop TrivialIso elements and splice
the elements of nested ComposedLens values (base.py lines 422 to 432). -/
def filterLenses : List Optic → List Optic
  | [] => []
  | .trivialIso :: rest => filterLenses rest
  | .composed inner :: rest => inner ++ filterLenses rest
  | l :: rest => l :: filterLenses rest

/-- The body of `ComposedLens.compose` after the constructor has
filtered the element list: collapse empty to TrivialIso, collapse a
singleton to its element, reject a kindless chain, and otherwise build
the ComposedLens. -/
def mkFromList (l : List Optic) : Except Err Optic :=
  match l with
  | [] => .ok .trivialIso
  | [x] => .ok x
  | result =>
    match kindOf (.composed result) with
    | none => .error (.runtimeError "Optic has no valid type")
    | some _ => .ok (.composed result)

/-- `ComposedLens.compose` (base.py lines 450 to 458): construct
`ComposedLens(self.lenses + [other])` (whose constructor filters) and
apply the collapse and kind checks. -/
def composedCompose (ls : List Optic) (other : Optic) : Except Err Optic :=
  mkFromList (filterLenses (ls ++ [other]))

/-- `LensLike.compose` and `ComposedLens.compose`: a leaf wraps itself
in `ComposedLens([self])` first (base.py line 153). -/
def Optic.compose (o other : Optic) : Except Err Optic :=
  match o with
  | .composed ls => composedCompose ls other
  | _ => composedCompose (filterLenses [o]) other

mutual
/-- `LensLike.func` and its overrides: the uncurried van Laarhoven
function of every optic (base.py lines 81, 216, 259, 323, 394, 434). -/
def Optic.func : Optic → Functorisor → Val → Except Err FVal
  | .getter g, f, state => do
      let fv ← f.app state
      let r ← dynFmap (FVal.unwrap fv) g
      .ok (.const r)
  | .lens get put, f, state => do
      let fa ← f.app (get state)
      .ok (fmapF fa (fun a => put state a))
  | .review _, _, _ => .error (.unimplError "Tried to use unimplemented lens.")
  | .prism unpack pack, f, state =>
      match unpack state with
      | .vNothing => .ok (f.pure state)
      | .vJust x => do
          let fa ← f.app x
          .ok (fmapF fa pack)
      | _ => .error .attrError
  | .iso forwards backwards, f, state => do
      let fa ← f.app (forwards state)
      .ok (fmapF fa backwards)
  | .trivialIso, f, state => do
      let fa ← f.app state
      .ok (fmapF fa (fun a => a))
  | .errorIso exc, _, state => .error (exc state)
  | .composed ls, f, state =>
      match ls with
      | [] => do
          let fa ← f.app state
          .ok (fmapF fa (fun a => a))
      | l :: rest => (chainF (l :: rest) f).app state

/-- The fold of `ComposedLens.func`: `res = f` then
`res = res.update(lens.func)` over the reversed element list, so the
head element is applied outermost. -/
def chainF : List Optic → Functorisor → Functorisor
  | [], f => f
  | l :: rest, f => (chainF rest f).update (fun g s => Optic.func l g s)
end

/-- `LensLike.view` (base.py lines 87 to 108). -/
def Optic.view (o : Optic) (state : Val) : Except Err Val :=
  match isKind o .fold with
  | false => .error (.typeError "Must be an instance of Fold to .view()")
  | true =>
    match Optic.func o ⟨fun _ => .const .vNothing, fun a => .ok (.const (.vJust a))⟩ state with
    | .error e => .error e
    | .ok fv =>
      match FVal.unwrap fv with
      | .vNothing => .error (.valueError "No focus to view")
      | .vJust x => .ok x
      | _ => .error .attrError

/-- `LensLike.to_list_of` (base.py lines 110 to 121). -/
def Optic.to_list_of (o : Optic) (state : Val) : Except Err Val :=
  match isKind o .fold with
  | false => .error (.typeError "Must be an instance of Fold to .to_list_of()")
  | true =>
    (Optic.func o ⟨fun _ => .const (.vList []), fun a => .ok (.const (.vList [a]))⟩ state).map
      FVal.unwrap

/-- `LensLike.over` (base.py lines 123 to 134). -/
def Optic.over (o : Optic) (state : Val) (fn : Val → Val) : Except Err Val :=
  match isKind o .setter with
  | false => .error (.typeError "Must be an instance of Setter to .over()")
  | true =>
    (Optic.func o ⟨fun a => .identity a, fun a => .ok (.identity (fn a))⟩ state).map
      FVal.unwrap

/-- `LensLike.set` (base.py lines 136 to 147). -/
def Optic.set (o : Optic) (state : Val) (value : Val) : Except Err Val :=
  match isKind o .setter with
  | false => .error (.typeError "Must be an instance of Setter to .set()")
  | true =>
    (Optic.func o ⟨fun a => .identity a, fun a => .ok (.identity value)⟩ state).map
      FVal.unwrap

mutual
/-- `LensLike.from_` and its overrides: Isomorphism swaps its two
functions (base.py line 391), TrivialIso inherits that behaviour and
yields a plain Isomorphism over identity functions, ErrorIso inherits
it too but owns no backwards or forwards attribute so the lookup
raises AttributeError, ComposedLens maps `from_` over its reversed
elements with no kind check (base.py line 444), and every other optic
fails the Isomorphism kind check. -/
def Optic.from_ : Optic → Except Err Optic
  | .iso forwards backwards => .ok (.iso backwards forwards)
  | .trivialIso => .ok (.iso (fun a => a) (fun a => a))
  | .errorIso _ => .error .attrError
  | .composed ls => do
      let ls2 ← fromListRev ls
      .ok (.composed (filterLenses ls2))
  | _ => .error (.typeError "Must be an instance of Isomorphism to .from_()")

/-- The list comprehension `[l.from_() for l in reversed(self.lenses)]`:
elements are flipped last to first, and the first raise wins. -/
def fromListRev : List Optic → Except Err (List Optic)
  | [] => .ok []
  | l :: rest => do
      let rest2 ← fromListRev rest
      let l2 ← Optic.from_ l
      .ok (rest2 ++ [l2])
end

mutual
/-- `LensLike.re` and its overrides: Review and Prism yield a Getter
over `pack` (base.py line 281), Isomorphism yields the flipped
Isomorphism (base.py line 388), TrivialIso inherits that, ErrorIso
inherits it but owns no backwards or forwards attribute so the lookup
raises AttributeError, ComposedLens maps `re` over its elements in
order with no kind check (base.py line 447), and every other optic
fails the Review kind check. -/
def Optic.re : Optic → Except Err Optic
  | .review pack => .ok (.getter pack)
  | .prism _ pack => .ok (.getter pack)
  | .iso forwards backwards => .ok (.iso backwards forwards)
  | .trivialIso => .ok (.iso (fun a => a) (fun a => a))
  | .errorIso _ => .error .attrError
  | .composed ls => do
      let ls2 ← reList ls
      .ok (.composed (filterLenses ls2))
  | _ => .error (.typeError "Must be an instance of Review to .re()")

/-- The list comprehension `[l.re() for l in self.lenses]`. -/
def reList : List Optic → Except Err (List Optic)
  | [] => .ok []
  | l :: rest => do
      let l2 ← Optic.re l
      let rest2 ← reList rest
      .ok (l2 :: rest2)
end

/-- True for the leaf optics that survive `_filter_lenses` unchanged. -/
def isLeafNT : Optic → Bool
  | .trivialIso => false
  | .composed _ => false
  | _ => true

/-- Well-formedness invariant of optics reachable through the public
constructors and `compose`: a ComposedLens only ever holds at least two
filtered leaf elements and has a valid kind; every other optic is a
leaf. -/
def WFopt : Optic → Bool
  | .composed ls => ls.all isLeafNT && decide (2 ≤ ls.length) && (kindOf (.composed ls)).isSome
  | _ => true

/-- The element sequence an optic contributes to a composition chain. -/
def elts : Optic → List Optic
  | .trivialIso => []
  | .composed ls => ls
  | o => [o]

/-! Equation lemmas for the mutually recursive definitions. -/

@[simp] lemma isKind_getter (g : Val → Val) (k : Kind) :
    isKind (.getter g) k = clsIsKind .cGetter k := by simp [isKind]

@[simp] lemma isKind_lens (g : Val → Val) (p : Val → Val → Val) (k : Kind) :
    isKind (.lens g p) k = clsIsKind .cLens k := by simp [isKind]

@[simp] lemma isKind_review (p : Val → Val) (k : Kind) :
    isKind (.review p) k = clsIsKind .cReview k := by simp [isKind]

@[simp] lemma isKind_prism (u p : Val → Val) (k : Kind) :
    isKind (.prism u p) k = clsIsKind .cPrism k := by simp [isKind]

@[simp] lemma isKind_iso (f b : Val → Val) (k : Kind) :
    isKind (.iso f b) k = clsIsKind .cIso k := by simp [isKind]

@[simp] lemma isKind_trivial (k : Kind) :
    isKind .trivialIso k = clsIsKind .cIso k := by simp [isKind]

@[simp] lemma isKind_error (e : Val → Err) (k : Kind) :
    isKind (.errorIso e) k = clsIsKind .cIso k := by simp [isKind]

@[simp] lemma isKind_composed (ls : List Optic) (k : Kind) :
    isKind (.composed ls) k = isKindAll ls k := by simp [isKind]

@[simp] lemma isKindAll_nil (k : Kind) : isKindAll [] k = true := by simp [isKindAll]

@[simp] lemma isKindAll_cons (l : Optic) (rest : List Optic) (k : Kind) :
    isKindAll (l :: rest) k = (isKind l k && isKindAll rest k) := by simp [isKindAll]

lemma isKindAll_append (xs ys : List Optic) (k : Kind) :
    isKindAll (xs ++ ys) k = (isKindAll xs k && isKindAll ys k) := by
  induction xs with
  | nil => simp
  | cons x xs ih => simp [ih, Bool.and_assoc]

/-! Lemmas about composition flattening. -/

lemma filterLenses_append (xs ys : List Optic) :
    filterLenses (xs ++ ys) = filterLenses xs ++ filterLenses ys := by
  induction xs with
  | nil => simp [filterLenses]
  | cons x xs ih => cases x <;> simp [filterLenses, ih]

lemma filterLenses_leaf (ls : List Optic) (h : ls.all isLeafNT = true) :
    filterLenses ls = ls := by
  induction ls with
  | nil => simp [filterLenses]
  | cons x xs ih =>
    simp only [List.all_cons, Bool.and_eq_true] at h
    cases x <;> simp_all [filterLenses, isLeafNT]

lemma elts_all_leaf (o : Optic) (h : WFopt o = true) : (elts o).all isLeafNT = true := by
  cases o <;> simp_all [WFopt, elts, isLeafNT]

lemma filterLenses_single (o : Optic) : filterLenses [o] = elts o := by
  cases o <;> simp [filterLenses, elts]

/-- Composition in terms of the contributed element sequences: for
well-formed operands, `compose` flattens to the concatenation of the
two element lists and then applies the collapse and kind checks. -/
lemma compose_eq (A B : Optic) (hA : WFopt A = true) (hB : WFopt B = true) :
    Optic.compose A B = mkFromList (elts A ++ elts B) := by
  have h1 : filterLenses (elts A) = elts A := filterLenses_leaf _ (elts_all_leaf A hA)
  have h2 : filterLenses [B] = elts B := filterLenses_single B
  cases A <;>
    simp [Optic.compose, composedCompose, filterLenses_append, filterLenses_single, h2] <;>
    simp [elts] at h1 ⊢ <;> simp [h1]

lemma elts_leaf (o : Optic) (h : isLeafNT o = true) : elts o = [o] := by
  cases o <;> simp_all [elts, isLeafNT]

/-- A successful composition of well-formed optics is well formed and
its element sequence is the concatenation of the operand sequences. -/
lemma compose_ok (A B R : Optic) (hA : WFopt A = true) (hB : WFopt B = true)
    (h : Optic.compose A B = .ok R) :
    WFopt R = true ∧ elts R = elts A ++ elts B := by
  rw [compose_eq A B hA hB] at h
  have hall : (elts A ++ elts B).all isLeafNT = true := by
    simp [List.all_append, elts_all_leaf A hA, elts_all_leaf B hB]
  revert h
  match hl : elts A ++ elts B with
  | [] => intro h; simp [mkFromList] at h; subst h; simp [WFopt, elts]
  | [x] =>
    intro h; simp [mkFromList] at h; subst h
    have hx : isLeafNT x = true := by simp [hl] at hall; exact hall
    constructor
    · cases x <;> simp_all [WFopt, isLeafNT]
    · exact elts_leaf x hx
  | x :: y :: rest =>
    intro h
    simp only [mkFromList] at h
    revert h
    match hk : kindOf (.composed (x :: y :: rest)) with
    | none => intro h; exact absurd h (by simp)
    | some k =>
      intro h
      simp only [Except.ok.injEq] at h
      subst h
      refine ⟨?_, rfl⟩
      simp only [WFopt, hk]
      rw [hl] at hall
      simp at hall ⊢
      exact hall

lemma mkFromList_elts (A : Optic) (hA : WFopt A = true) : mkFromList (elts A) = .ok A := by
  cases A with
  | composed ls =>
    simp only [WFopt, Bool.and_eq_true, decide_eq_true_eq, Option.isSome_iff_exists] at hA
    obtain ⟨⟨-, hlen⟩, k, hk⟩ := hA
    cases ls with
    | nil => simp at hlen
    | cons x t =>
      cases t with
      | nil => simp at hlen
      | cons y r => simp only [elts, mkFromList, hk]
  | getter g => simp [elts, mkFromList]
  | lens g p => simp [elts, mkFromList]
  | review p => simp [elts, mkFromList]
  | prism u p => simp [elts, mkFromList]
  | iso f b => simp [elts, mkFromList]
  | trivialIso => simp [elts, mkFromList]
  | errorIso e => simp [elts, mkFromList]

/-- The example getter and setter of an index one lens over lists. -/
def exGet : Val → Val := fun s =>
  match s with
  | .vList (_ :: b :: _) => b
  | _ => .vNothing

/-- The example setter of an index one lens over lists. -/
def exPut : Val → Val → Val := fun s v =>
  match s with
  | .vList (a :: _ :: rest) => .vList (a :: v :: rest)
  | _ => s

/-- The index one lens of the spec example. -/
def exLens : Optic := .lens exGet exPut

example : kindOf (.composed [exLens, exLens]) = some .lens := by
  simp [kindOf, scanKinds, List.find?, clsIsKind, exLens]

example : Optic.compose exLens exLens = .ok (.composed [exLens, exLens]) := by
  simp [Optic.compose, composedCompose, filterLenses, mkFromList, exLens,
    kindOf, scanKinds, List.find?, clsIsKind]

example : Optic.to_list_of exLens (.vList [.vInt 1, .vInt 2, .vInt 3]) = .ok (.vList [.vInt 2]) := by
  simp [Optic.to_list_of, Optic.func, exLens, clsIsKind, exGet, fmapF, FVal.unwrap, Except.map,
    Except.bind, bind]

example : Optic.view (.composed [exLens, exLens]) (.vList [.vInt 1, .vList [.vInt 4, .vInt 5], .vInt 3])
    = .ok (.vInt 5) := by
  simp [Optic.view, Optic.func, chainF, Functorisor.update, exLens, clsIsKind, exGet, fmapF,
    FVal.unwrap, Except.map, Except.bind, bind]

/-- C4: composing with the identity optic (TrivialIso) on either side
returns the other operand itself: the identity element is dropped by
the flattening in the ComposedLens constructor, so both compositions
are literally equal to `A` and in particular behave identically to `A`
under every public operation on every state. -/
theorem c4_identity_neutral (A : Optic) (hA : WFopt A = true) :
    Optic.compose .trivialIso A = .ok A ∧ Optic.compose A .trivialIso = .ok A := by
  have h1 := compose_eq .trivialIso A (by simp [WFopt]) hA
  have h2 := compose_eq A .trivialIso hA (by simp [WFopt])
  simp only [elts, List.nil_append, List.append_nil] at h1 h2
  exact ⟨h1.trans (mkFromList_elts A hA), h2.trans (mkFromList_elts A hA)⟩

/-- Witness for C4 at the concrete index one lens. -/
theorem c4_identity_neutral_witness :
    Optic.compose .trivialIso exLens = .ok exLens ∧
    Optic.compose exLens .trivialIso = .ok exLens :=
  c4_identity_neutral exLens (by simp [exLens, WFopt])

/-- C5: composition is associative whenever the intermediate
compositions succeed: both associations flatten to the same element
sequence, so the two results are equal optics (and in particular agree
under every public operation), and they fail in the same way if the
triple has no valid kind. -/
theorem c5_compose_assoc (A B C AB BC : Optic)
    (hA : WFopt A = true) (hB : WFopt B = true) (hC : WFopt C = true)
    (hAB : Optic.compose A B = .ok AB) (hBC : Optic.compose B C = .ok BC) :
    Optic.compose AB C = Optic.compose A BC := by
  obtain ⟨hABw, hABe⟩ := compose_ok A B AB hA hB hAB
  obtain ⟨hBCw, hBCe⟩ := compose_ok B C BC hB hC hBC
  rw [compose_eq AB C hABw hC, compose_eq A BC hA hBCw, hABe, hBCe, List.append_assoc]

/-- Witness for C5 at three copies of the concrete index one lens. -/
theorem c5_compose_assoc_witness :
    Optic.compose (.composed [exLens, exLens]) exLens
      = Optic.compose exLens (.composed [exLens, exLens]) := by
  have hw : WFopt exLens = true := by simp [exLens, WFopt]
  have hc : Optic.compose exLens exLens = .ok (.composed [exLens, exLens]) := by
    simp [Optic.compose, composedCompose, filterLenses, mkFromList, exLens,
      kindOf, scanKinds, List.find?, clsIsKind]
  exact c5_compose_assoc exLens exLens exLens _ _ hw hw hw hc hc

/-- C2: every public operation checks its required capability kind
before any evaluation.  On an optic whose kind lacks Setter, `set` and
`over` return the capability TypeError naming the missing capability
and the operation; the result is a constant, independent of the state,
the value, the function argument, and every getter, setter, pack or
unpack function stored in the (universally quantified) optic, so no
such function is ever called.  Likewise for `view` and `to_list_of` on
an optic whose kind lacks Fold. -/
theorem c2_capability_checked_first (o : Optic) (s v : Val) (fn : Val → Val) :
    (isKind o .setter = false →
      Optic.set o s v = .error (.typeError "Must be an instance of Setter to .set()") ∧
      Optic.over o s fn = .error (.typeError "Must be an instance of Setter to .over()")) ∧
    (isKind o .fold = false →
      Optic.view o s = .error (.typeError "Must be an instance of Fold to .view()") ∧
      Optic.to_list_of o s = .error (.typeError "Must be an instance of Fold to .to_list_of()")) := by
  constructor
  · intro h
    constructor <;> simp [Optic.set, Optic.over, h]
  · intro h
    constructor <;> simp [Optic.view, Optic.to_list_of, h]

/-- The example pack function used for Review witnesses. -/
def exReviewPack : Val → Val := fun v => .vList [v]

/-- Witness for C2: a Review optic supports neither Setter nor Fold, so
all four operations fail with the capability TypeError. -/
theorem c2_capability_checked_first_witness :
    Optic.set (.review exReviewPack) .vNothing .vNothing
      = .error (.typeError "Must be an instance of Setter to .set()") ∧
    Optic.view (.review exReviewPack) .vNothing
      = .error (.typeError "Must be an instance of Fold to .view()") := by
  have h := c2_capability_checked_first (.review exReviewPack) .vNothing .vNothing (fun a => a)
  exact ⟨(h.1 (by simp [clsIsKind])).1, (h.2 (by simp [clsIsKind])).1⟩

/-- C8: on any optic with the Setter capability, `set` is extensionally
equal to `over` with the constant function: the two operations build
definitionally equal mode dispatchers. -/
theorem c8_set_eq_over_const (o : Optic) (s v : Val) (h : isKind o .setter = true) :
    Optic.set o s v = Optic.over o s (fun _ => v) := by
  simp only [Optic.set, Optic.over, h]

/-- Witness for C8 at the concrete index one lens. -/
theorem c8_set_eq_over_const_witness :
    Optic.set exLens (.vList [.vInt 1, .vInt 2, .vInt 3]) (.vInt 9)
      = Optic.over exLens (.vList [.vInt 1, .vInt 2, .vInt 3]) (fun _ => .vInt 9) :=
  c8_set_eq_over_const exLens _ _ (by simp [exLens, clsIsKind])

/-- C6: the Lens evaluation contract.  For every lens built from get
and put functions: `to_list_of` returns exactly the one focus
`get s`, `set` returns `put s v`, and `over` returns
`put s (fn (get s))`; and for the concrete index one lens of the spec
example, `set` on `[1,2,3]` with value 9 gives `[1,9,3]` and
`to_list_of` gives `[2]`. -/
theorem c6_lens_contract (g : Val → Val) (p : Val → Val → Val) (s v : Val) (fn : Val → Val) :
    (Optic.to_list_of (.lens g p) s = .ok (.vList [g s]) ∧
     Optic.set (.lens g p) s v = .ok (p s v) ∧
     Optic.over (.lens g p) s fn = .ok (p s (fn (g s)))) ∧
    (Optic.set exLens (.vList [.vInt 1, .vInt 2, .vInt 3]) (.vInt 9)
        = .ok (.vList [.vInt 1, .vInt 9, .vInt 3]) ∧
     Optic.to_list_of exLens (.vList [.vInt 1, .vInt 2, .vInt 3]) = .ok (.vList [.vInt 2])) := by
  refine ⟨⟨?_, ?_, ?_⟩, ?_, ?_⟩ <;>
    simp [Optic.to_list_of, Optic.set, Optic.over, Optic.func, exLens, clsIsKind, exGet, exPut,
      fmapF, FVal.unwrap, Except.map, Except.bind, bind]

/-- Modelled from the spec: digit accumulation for the
parse-int-or-absent example function. -/
def parseDigitsAux : List Char → Nat → Option Nat
  | [], acc => some acc
  | c :: cs, acc => if c.isDigit then parseDigitsAux cs (10 * acc + (c.toNat - 48)) else none

/-- Modelled from the spec: the parse-int-or-absent example function of
the Prism short-circuit example (an optional minus sign followed by
decimal digits). -/
def parseIntStr (s : String) : Option Int :=
  match s.data with
  | [] => none
  | '-' :: cs =>
    match cs with
    | [] => none
    | _ => (parseDigitsAux cs 0).map (fun n => -(n : Int))
  | cs => (parseDigitsAux cs 0).map (fun n => (n : Int))

/-- The unpack function of the example prism: parse an integer from a
string, Absent on failure. -/
def exUnpack : Val → Val := fun s =>
  match s with
  | .vStr str =>
    match parseIntStr str with
    | some n => .vJust (.vInt n)
    | none => .vNothing
  | _ => .vNothing

/-- The pack function of the example prism: render an integer back to a
string. -/
def exPack : Val → Val := fun v =>
  match v with
  | .vInt n => .vStr (toString n)
  | v => v

/-- The parse-int prism of the spec example. -/
def exPrism : Optic := .prism exUnpack exPack

/-- C3: the Prism evaluation contract.  When unpack is Absent the state
passes through unchanged with zero foci and no error; when unpack is
Present the prism has exactly that focus and `set` rebuilds via pack.
The concrete conjuncts instantiate the parse-int-or-absent example of
the spec. -/
theorem c3_prism_contract (unpack pack : Val → Val) (state v : Val) :
    (unpack state = .vNothing →
      Optic.to_list_of (.prism unpack pack) state = .ok (.vList []) ∧
      Optic.set (.prism unpack pack) state v = .ok state) ∧
    (∀ focus, unpack state = .vJust focus →
      Optic.to_list_of (.prism unpack pack) state = .ok (.vList [focus]) ∧
      Optic.set (.prism unpack pack) state v = .ok (pack v)) ∧
    (Optic.to_list_of exPrism (.vStr "abc") = .ok (.vList []) ∧
     Optic.to_list_of exPrism (.vStr "42") = .ok (.vList [.vInt 42]) ∧
     Optic.set exPrism (.vStr "42") (.vInt 7) = .ok (.vStr "7") ∧
     Optic.set exPrism (.vStr "abc") (.vInt 7) = .ok (.vStr "abc")) := by
  have habc : exUnpack (.vStr "abc") = .vNothing := rfl
  have h42 : exUnpack (.vStr "42") = .vJust (.vInt 42) := rfl
  have hpack : exPack (.vInt 7) = .vStr "7" := rfl
  refine ⟨fun h => ?_, fun focus h => ?_, ?_⟩
  · constructor <;>
      simp [Optic.to_list_of, Optic.set, Optic.func, clsIsKind, h, fmapF, FVal.unwrap,
        Except.map, Except.bind, bind]
  · constructor <;>
      simp [Optic.to_list_of, Optic.set, Optic.func, clsIsKind, h, fmapF, FVal.unwrap,
        Except.map, Except.bind, bind]
  · refine ⟨?_, ?_, ?_, ?_⟩ <;>
      simp [Optic.to_list_of, Optic.set, Optic.func, exPrism, clsIsKind, habc, h42, hpack,
        fmapF, FVal.unwrap, Except.map, Except.bind, bind]

/-- Witness for C3 discharging both hypotheses of the quantified parts
at the concrete prism: the Absent branch at state "abc" and the Present
branch at state "42". -/
theorem c3_prism_contract_witness :
    Optic.set (.prism exUnpack exPack) (.vStr "abc") (.vInt 7) = .ok (.vStr "abc") ∧
    Optic.to_list_of (.prism exUnpack exPack) (.vStr "42") = .ok (.vList [.vInt 42]) :=
  ⟨((c3_prism_contract exUnpack exPack (.vStr "abc") (.vInt 7)).1 rfl).2,
   ((c3_prism_contract exUnpack exPack (.vStr "42") (.vInt 7)).2.1 (.vInt 42) rfl).1⟩

/-- C10: `re()` on an Isomorphism returns the flipped Isomorphism, the
same optic `from_()` returns, not a mere Getter over pack: the result
keeps the full Isomorphism kind, `view` on it applies `backwards`, the
Setter capability remains available, flipping it recovers the original
functions, and `re(re(I))` is literally `I`. -/
theorem c10_re_keeps_iso (fw bw : Val → Val) (a v : Val) :
    Optic.re (.iso fw bw) = .ok (.iso bw fw) ∧
    Optic.from_ (.iso fw bw) = .ok (.iso bw fw) ∧
    Optic.view (.iso bw fw) a = .ok (bw a) ∧
    Optic.set (.iso bw fw) a v = .ok (fw v) ∧
    kindOf (.iso bw fw) = some .isomorphism ∧
    isKind (.iso bw fw) .setter = true ∧
    Optic.from_ (.iso bw fw) = .ok (.iso fw bw) ∧
    (do
      let r ← Optic.re (.iso fw bw)
      Optic.re r) = .ok (.iso fw bw) := by
  refine ⟨?_, ?_, ?_, ?_, ?_, ?_, ?_, ?_⟩ <;>
    simp [Optic.re, Optic.from_, Optic.view, Optic.set, Optic.func, clsIsKind, kindOf,
      scanKinds, List.find?, fmapF, FVal.unwrap, Except.map, Except.bind, bind]

/-- The degeneracy map between the two Const payload monoids used by
`to_list_of` and `view`: an empty focus list corresponds to Nothing and
a singleton focus list to Just of the focus. -/
def listToMaybe : Val → Val
  | .vList [x] => .vJust x
  | _ => .vNothing

/-- Relation between a to_list_of-mode evaluation result and a
view-mode evaluation result: either both raise the same exception, or
both return Const values whose payloads are a focus list of length at
most one and its Maybe image. -/
inductive RRes : Except Err FVal → Except Err FVal → Prop
  | ok (l : List Val) (hl : l.length ≤ 1) :
      RRes (.ok (.const (.vList l))) (.ok (.const (listToMaybe (.vList l))))
  | err (e : Err) : RRes (.error e) (.error e)

/-- Relation between a to_list_of-mode dispatcher and a view-mode
dispatcher. -/
structure RFun (G Gv : Functorisor) : Prop where
  pure_l : ∀ a, G.pure a = .const (.vList [])
  pure_v : ∀ a, Gv.pure a = .const .vNothing
  app_rel : ∀ a, RRes (G.app a) (Gv.app a)

lemma rres_cases {x y : Except Err FVal} (h : RRes x y) :
    (∃ l, l.length ≤ 1 ∧ x = .ok (.const (.vList l)) ∧
      y = .ok (.const (listToMaybe (.vList l)))) ∨
    (∃ e, x = .error e ∧ y = .error e) := by
  cases h with
  | ok l hl => exact .inl ⟨l, hl, rfl, rfl⟩
  | err e => exact .inr ⟨e, rfl, rfl⟩

mutual
/-- Any optic evaluated under related dispatchers produces related
results: foci collected in list mode and in Maybe mode agree, and in
particular every optic of this model focuses at most one value. -/
theorem func_rel (o : Optic) (G Gv : Functorisor) (s : Val) (h : RFun G Gv) :
    RRes (Optic.func o G s) (Optic.func o Gv s) := by
  cases o with
  | getter g =>
    rcases rres_cases (h.app_rel s) with ⟨l, hl, hx, hy⟩ | ⟨e, hx, hy⟩
    · match l, hl with
      | [], _ =>
        simp only [Optic.func, hx, hy, Except.bind, bind, listToMaybe, FVal.unwrap, dynFmap]
        exact RRes.ok [] (by simp)
      | [x], _ =>
        simp only [Optic.func, hx, hy, Except.bind, bind, listToMaybe, FVal.unwrap, dynFmap,
          List.map]
        exact RRes.ok [g x] (by simp)
    · simp only [Optic.func, hx, hy, Except.bind, bind]
      exact RRes.err e
  | lens get put =>
    rcases rres_cases (h.app_rel (get s)) with ⟨l, hl, hx, hy⟩ | ⟨e, hx, hy⟩
    · simp only [Optic.func, hx, hy, Except.bind, bind, fmapF]
      exact RRes.ok l hl
    · simp only [Optic.func, hx, hy, Except.bind, bind]
      exact RRes.err e
  | review p =>
    simp only [Optic.func]
    exact RRes.err _
  | prism unpack pack =>
    simp only [Optic.func]
    cases hu : unpack s with
    | vNothing =>
      simp only [h.pure_l s, h.pure_v s]
      exact RRes.ok [] (by simp)
    | vJust x =>
      rcases rres_cases (h.app_rel x) with ⟨l, hl, hx, hy⟩ | ⟨e, hx, hy⟩
      · simp only [hx, hy, Except.bind, bind, fmapF]
        exact RRes.ok l hl
      · simp only [hx, hy, Except.bind, bind]
        exact RRes.err e
    | vInt n => exact RRes.err _
    | vStr str => exact RRes.err _
    | vList l => exact RRes.err _
  | iso fw bw =>
    rcases rres_cases (h.app_rel (fw s)) with ⟨l, hl, hx, hy⟩ | ⟨e, hx, hy⟩
    · simp only [Optic.func, hx, hy, Except.bind, bind, fmapF]
      exact RRes.ok l hl
    · simp only [Optic.func, hx, hy, Except.bind, bind]
      exact RRes.err e
  | trivialIso =>
    rcases rres_cases (h.app_rel s) with ⟨l, hl, hx, hy⟩ | ⟨e, hx, hy⟩
    · simp only [Optic.func, hx, hy, Except.bind, bind, fmapF]
      exact RRes.ok l hl
    · simp only [Optic.func, hx, hy, Except.bind, bind]
      exact RRes.err e
  | errorIso exc =>
    simp only [Optic.func]
    exact RRes.err _
  | composed ls =>
    cases ls with
    | nil =>
      rcases rres_cases (h.app_rel s) with ⟨l, hl, hx, hy⟩ | ⟨e, hx, hy⟩
      · simp only [Optic.func, hx, hy, Except.bind, bind, fmapF]
        exact RRes.ok l hl
      · simp only [Optic.func, hx, hy, Except.bind, bind]
        exact RRes.err e
    | cons l rest =>
      simp only [Optic.func]
      exact (chain_rel (l :: rest) G Gv h).app_rel s
termination_by sizeOf o

/-- Folding related dispatchers through a chain of optics keeps them
related. -/
theorem chain_rel (ls : List Optic) (G Gv : Functorisor) (h : RFun G Gv) :
    RFun (chainF ls G) (chainF ls Gv) := by
  cases ls with
  | nil =>
    simp only [chainF]
    exact h
  | cons l rest =>
    have h' := chain_rel rest G Gv h
    simp only [chainF]
    exact {
      pure_l := fun a => h'.pure_l a
      pure_v := fun a => h'.pure_v a
      app_rel := fun a => func_rel l (chainF rest G) (chainF rest Gv) a h' }
termination_by sizeOf ls
end

/-- C7: for any optic and state on which `to_list_of` succeeds with
focus list `l` (which requires the Fold capability), the optics of this
library focus at most one value; `view` raises the empty focus
ValueError exactly when there are zero foci, and returns the single
focus (the monoid combination of a one element focus set) when one
exists. -/
theorem c7_view_empty_or_single (o : Optic) (s : Val) (l : List Val)
    (h : Optic.to_list_of o s = .ok (.vList l)) :
    l.length ≤ 1 ∧
    (l = [] → Optic.view o s = .error (.valueError "No focus to view")) ∧
    (∀ x, l = [x] → Optic.view o s = .ok x) := by
  cases hf : isKind o .fold with
  | false => simp [Optic.to_list_of, hf] at h
  | true =>
    have hbase : RFun ⟨fun _ => .const (.vList []), fun a => .ok (.const (.vList [a]))⟩
        ⟨fun _ => .const .vNothing, fun a => .ok (.const (.vJust a))⟩ :=
      { pure_l := fun _ => rfl
        pure_v := fun _ => rfl
        app_rel := fun a => RRes.ok [a] (by simp) }
    have hr := func_rel o _ _ s hbase
    rcases rres_cases hr with ⟨l', hl', hx, hy⟩ | ⟨e, hx, hy⟩
    · have hts : Optic.to_list_of o s = .ok (.vList l') := by
        simp [Optic.to_list_of, hf, hx, Except.map, FVal.unwrap]
      have hll : l = l' := by
        have := h.symm.trans hts
        simpa using this
      subst hll
      refine ⟨hl', ?_, ?_⟩
      · rintro rfl
        simp [Optic.view, hf, hy, FVal.unwrap, listToMaybe]
      · rintro x rfl
        simp [Optic.view, hf, hy, FVal.unwrap, listToMaybe]
    · simp [Optic.to_list_of, hf, hx, Except.map] at h

/-- Witness for C7 at the parse-int prism: zero foci on "abc" makes
`view` raise the ValueError, one focus on "42" makes `view` return it. -/
theorem c7_view_empty_or_single_witness :
    Optic.view exPrism (.vStr "abc") = .error (.valueError "No focus to view") ∧
    Optic.view exPrism (.vStr "42") = .ok (.vInt 42) := by
  have habc : exUnpack (.vStr "abc") = .vNothing := rfl
  have h42 : exUnpack (.vStr "42") = .vJust (.vInt 42) := rfl
  have h1 : Optic.to_list_of exPrism (.vStr "abc") = .ok (.vList []) := by
    simp [Optic.to_list_of, Optic.func, exPrism, clsIsKind, habc, fmapF, FVal.unwrap,
      Except.map, Except.bind, bind]
  have h2 : Optic.to_list_of exPrism (.vStr "42") = .ok (.vList [.vInt 42]) := by
    simp [Optic.to_list_of, Optic.func, exPrism, clsIsKind, h42, fmapF, FVal.unwrap,
      Except.map, Except.bind, bind]
  exact ⟨(c7_view_empty_or_single exPrism _ [] h1).2.1 rfl,
    (c7_view_empty_or_single exPrism _ [.vInt 42] h2).2.2 _ rfl⟩

/-- Swap the two functions of an Isomorphism leaf. -/
def swapIso : Optic → Optic
  | .iso f b => .iso b f
  | o => o

/-- True exactly for Isomorphism leaves. -/
def isIsoLeaf : Optic → Bool
  | .iso _ _ => true
  | _ => false

/-- True exactly for ErrorIso leaves. -/
def isErrorLeaf : Optic → Bool
  | .errorIso _ => true
  | _ => false

/-- True when the optic is not an ErrorIso and, if a composition,
contains no ErrorIso element. -/
def errorFree : Optic → Bool
  | .errorIso _ => false
  | .composed ls => ls.all (fun l => !isErrorLeaf l)
  | _ => true

/-- A concrete diagnostic ErrorIso, as built by the ui.py `error_`
constructor. -/
def exError : Optic := .errorIso (fun _ => .runtimeError "diagnostic error")

lemma isoLeaf_isLeafNT (l : Optic) (h : isIsoLeaf l = true) : isLeafNT l = true := by
  cases l <;> simp_all [isIsoLeaf, isLeafNT]

lemma swapIso_isoLeaf (l : Optic) (h : isIsoLeaf l = true) : isIsoLeaf (swapIso l) = true := by
  cases l <;> simp_all [isIsoLeaf, swapIso]

lemma swapIso_swapIso (l : Optic) (h : isIsoLeaf l = true) : swapIso (swapIso l) = l := by
  cases l <;> simp_all [isIsoLeaf, swapIso]

/-- A filtered element list of Isomorphism kind with no ErrorIso
element consists of Isomorphism leaves: no other leaf class passes the
Isomorphism isinstance check. -/
lemma iso_elements (ls : List Optic) (hleaf : ls.all isLeafNT = true)
    (hk : isKindAll ls .isomorphism = true)
    (hne : ls.all (fun l => !isErrorLeaf l) = true) : ∀ l ∈ ls, isIsoLeaf l = true := by
  induction ls with
  | nil => simp
  | cons x rest ih =>
    simp only [List.all_cons, Bool.and_eq_true] at hleaf hne
    simp only [isKindAll_cons, Bool.and_eq_true] at hk
    intro l hl
    rcases List.mem_cons.mp hl with rfl | hl2
    · cases l <;> simp_all [isLeafNT, clsIsKind, isIsoLeaf, isErrorLeaf]
    · exact ih hleaf.2 hk.2 hne.2 l hl2

/-- Flipping a list of Isomorphism leaves in reversed evaluation order
yields the reversed list of swapped leaves. -/
lemma fromListRev_isos (ls : List Optic) (h : ∀ l ∈ ls, isIsoLeaf l = true) :
    fromListRev ls = .ok ((ls.map swapIso).reverse) := by
  induction ls with
  | nil => simp [fromListRev]
  | cons x rest ih =>
    have hx := h x (by simp)
    have hr := ih (fun l hl => h l (by simp [hl]))
    cases x <;> simp_all [isIsoLeaf, fromListRev, Optic.from_, swapIso, Except.bind, bind]

/-- Behavioural identity under every public operation: view,
to_list_of, over, set, the flip from_, and re. -/
def EvalEq (I J : Optic) : Prop :=
  (∀ s, Optic.view I s = Optic.view J s) ∧
  (∀ s, Optic.to_list_of I s = Optic.to_list_of J s) ∧
  (∀ s fn, Optic.over I s fn = Optic.over J s fn) ∧
  (∀ s v, Optic.set I s v = Optic.set J s v) ∧
  Optic.from_ I = Optic.from_ J ∧
  Optic.re I = Optic.re J

lemma evalEq_refl (I : Optic) : EvalEq I I :=
  ⟨fun _ => rfl, fun _ => rfl, fun _ _ => rfl, fun _ _ => rfl, rfl, rfl⟩

/-- The identity Isomorphism behaves exactly like TrivialIso under
every public operation. -/
lemma evalEq_id_iso_trivial : EvalEq (.iso (fun a => a) (fun a => a)) .trivialIso := by
  refine ⟨?_, ?_, ?_, ?_, ?_, ?_⟩
  · intro s; simp [Optic.view, Optic.func, clsIsKind]
  · intro s; simp [Optic.to_list_of, Optic.func, clsIsKind]
  · intro s fn; simp [Optic.over, Optic.func, clsIsKind]
  · intro s v; simp [Optic.set, Optic.func, clsIsKind]
  · simp [Optic.from_]
  · simp [Optic.re]

/-- C9 (amended): flipping twice is the identity up to behaviour for
the Isomorphism-kind optics that carry flip functions: for every
well-formed ErrorIso-free optic of Isomorphism kind, `from_` twice
succeeds and the result behaves identically to the original under
every public operation (for Isomorphism leaves and compositions it is
literally the original optic); and `from_` of a composition reverses
the element order and flips each element.  The ErrorIso exclusion is
forced: an ErrorIso also has Isomorphism kind but stores no backwards
or forwards function, so `from_` on it raises AttributeError instead
of flipping (see the counterexample). -/
theorem c9_flip_involution (I : Optic) (hw : WFopt I = true)
    (hiso : isKind I .isomorphism = true) (herr : errorFree I = true) :
    (∃ I₁ I₂, Optic.from_ I = .ok I₁ ∧ Optic.from_ I₁ = .ok I₂ ∧ EvalEq I₂ I) ∧
    (∀ f1 b1 f2 b2 : Val → Val,
      Optic.from_ (.composed [.iso f1 b1, .iso f2 b2])
        = .ok (.composed [.iso b2 f2, .iso b1 f1])) := by
  constructor
  · cases I with
    | iso f b =>
      exact ⟨.iso b f, .iso f b, by simp [Optic.from_], by simp [Optic.from_], evalEq_refl _⟩
    | trivialIso =>
      exact ⟨.iso (fun a => a) (fun a => a), .iso (fun a => a) (fun a => a),
        by simp [Optic.from_], by simp [Optic.from_], evalEq_id_iso_trivial⟩
    | errorIso e => simp [errorFree] at herr
    | composed ls =>
      simp only [WFopt, Bool.and_eq_true] at hw
      obtain ⟨⟨hleaf, -⟩, -⟩ := hw
      have hkall : isKindAll ls .isomorphism = true := by simpa using hiso
      have hne : ls.all (fun l => !isErrorLeaf l) = true := by
        simpa [errorFree] using herr
      have hisos := iso_elements ls hleaf hkall hne
      have h1 : fromListRev ls = .ok ((ls.map swapIso).reverse) := fromListRev_isos ls hisos
      have hisos2 : ∀ l ∈ (ls.map swapIso).reverse, isIsoLeaf l = true := by
        intro l hl
        rw [List.mem_reverse, List.mem_map] at hl
        obtain ⟨x, hx, rfl⟩ := hl
        exact swapIso_isoLeaf x (hisos x hx)
      have hfilter : filterLenses ((ls.map swapIso).reverse) = (ls.map swapIso).reverse :=
        filterLenses_leaf _ (by
          rw [List.all_eq_true]
          exact fun l hl => isoLeaf_isLeafNT l (hisos2 l hl))
      have hstep1 : Optic.from_ (.composed ls) = .ok (.composed ((ls.map swapIso).reverse)) := by
        simp [Optic.from_, h1, hfilter, Except.bind, bind]
      have h2 : fromListRev ((ls.map swapIso).reverse)
          = .ok (((ls.map swapIso).reverse.map swapIso).reverse) :=
        fromListRev_isos _ hisos2
      have hback : ((ls.map swapIso).reverse.map swapIso).reverse = ls := by
        rw [List.map_reverse, List.reverse_reverse, List.map_map]
        have hcong : ls.map (swapIso ∘ swapIso) = ls.map id :=
          List.map_congr_left (fun l hl => swapIso_swapIso l (hisos l hl))
        rw [hcong, List.map_id]
      have hisos3 : ∀ l ∈ ls, isLeafNT l = true := by
        intro l hl; exact isoLeaf_isLeafNT l (hisos l hl)
      refine ⟨.composed ((ls.map swapIso).reverse), .composed ls, hstep1, ?_, evalEq_refl _⟩
      simp only [Optic.from_, h2, Except.bind, bind]
      rw [hback, filterLenses_leaf ls (by rw [List.all_eq_true]; exact hisos3)]
    | getter g => simp [clsIsKind] at hiso
    | lens g p => simp [clsIsKind] at hiso
    | review p => simp [clsIsKind] at hiso
    | prism u p => simp [clsIsKind] at hiso
  · intro f1 b1 f2 b2
    simp [Optic.from_, fromListRev, filterLenses, Except.bind, bind]

/-- Witness for C9 at a two element Isomorphism composition. -/
theorem c9_flip_involution_witness :
    ∃ I₁ I₂, Optic.from_ (.composed [.iso exGet exPack, .iso exPack exGet]) = .ok I₁ ∧
      Optic.from_ I₁ = .ok I₂ ∧
      EvalEq I₂ (.composed [.iso exGet exPack, .iso exPack exGet]) :=
  (c9_flip_involution (.composed [.iso exGet exPack, .iso exPack exGet])
    (by simp [WFopt, isLeafNT, kindOf, scanKinds, List.find?, clsIsKind])
    (by simp [clsIsKind])
    (by simp [errorFree, isErrorLeaf])).1

/-- Counterexample to C9 as stated: the diagnostic ErrorIso (reachable
through the ui.py `error_` constructor) is a well-formed optic of
Isomorphism kind, yet `from_` on it raises AttributeError because an
ErrorIso stores no backwards or forwards function, so flip(flip(I)) is
not defined for it, let alone behaviourally identical to it; an
Isomorphism-kind composition containing it fails the same way. -/
theorem c9_counterexample :
    WFopt exError = true ∧
    kindOf exError = some .isomorphism ∧
    isKind exError .isomorphism = true ∧
    Optic.from_ exError = .error .attrError ∧
    kindOf (.composed [.iso exGet exPack, exError]) = some .isomorphism ∧
    Optic.from_ (.composed [.iso exGet exPack, exError]) = .error .attrError := by
  refine ⟨?_, ?_, ?_, ?_, ?_, ?_⟩
  · simp [WFopt, exError]
  · simp [kindOf, scanKinds, List.find?, clsIsKind, exError]
  · simp [clsIsKind, exError]
  · simp [Optic.from_, exError]
  · simp [kindOf, scanKinds, List.find?, clsIsKind, exError]
  · simp [Optic.from_, fromListRev, exError, Except.bind, bind]

/-- The upward closure of the subsumption ordering of the spec:
Getter below Fold, Traversal below Fold and Setter, Lens below Getter
and Traversal, Prism below Traversal and Review, Isomorphism below Lens
and Prism, Equality below Isomorphism; reflexive and transitive. -/
def kindUppers : Kind → List Kind
  | .equality => [.equality, .isomorphism, .prism, .review, .lens, .traversal, .getter, .setter, .fold]
  | .isomorphism => [.isomorphism, .prism, .review, .lens, .traversal, .getter, .setter, .fold]
  | .prism => [.prism, .review, .traversal, .setter, .fold]
  | .review => [.review]
  | .lens => [.lens, .getter, .traversal, .setter, .fold]
  | .traversal => [.traversal, .setter, .fold]
  | .getter => [.getter, .fold]
  | .setter => [.setter]
  | .fold => [.fold]

/-- The subsumption order of the spec: `kindLe a b` when a is at least
as capable as b (a is below b). -/
def kindLe (a b : Kind) : Bool := decide (b ∈ kindUppers a)

/-- The least upper bound of two kinds in the subsumption order, when
one exists among the nine kinds. -/
def kindJoin (a b : Kind) : Option Kind :=
  scanKinds.find? (fun k => kindLe a k && kindLe b k &&
    scanKinds.all (fun k2 => !(kindLe a k2 && kindLe b k2) || kindLe k k2))

/-- The greatest lower bound of two kinds in the subsumption order,
when one exists among the nine kinds: this is the lattice meet the
claim speaks about. -/
def kindMeet (a b : Kind) : Option Kind :=
  scanKinds.find? (fun k => kindLe k a && kindLe k b &&
    scanKinds.all (fun k2 => !(kindLe k2 a && kindLe k2 b) || kindLe k2 k))

/-- The leaf class of a leaf optic. -/
def leafCls : Optic → Cls
  | .getter _ => .cGetter
  | .lens _ _ => .cLens
  | .review _ => .cReview
  | .prism _ _ => .cPrism
  | _ => .cIso

/-- Whether every class in a finite class set is an instance of kind
`k`. -/
def kindSatB (s : Finset Cls) (k : Kind) : Bool := decide (∀ c ∈ s, clsIsKind c k = true)

/-- The kind of an optic chain whose elements have the given set of
leaf classes. -/
def fsetKind (s : Finset Cls) : Option Kind := scanKinds.find? (kindSatB s)

lemma boolEqOfIff {a b : Bool} (h : (a = true) ↔ (b = true)) : a = b := by
  cases a <;> cases b <;> simp_all

lemma findqCongr {α : Type} (p q : α → Bool) (l : List α) (h : ∀ x ∈ l, p x = q x) :
    l.find? p = l.find? q := by
  induction l with
  | nil => rfl
  | cons x xs ih =>
    have hx := h x (by simp)
    simp only [List.find?]
    rw [hx]
    cases q x
    · exact ih (fun y hy => h y (by simp [hy]))
    · rfl

/-- The finite core fact behind capability narrowing: the kind of a
union of two nonempty leaf class sets with valid kinds is the least
upper bound of their kinds in the subsumption order. -/
lemma joinCoreDec : ∀ s1 s2 : Finset Cls, s1.Nonempty → s2.Nonempty →
    fsetKind (s1 ∪ s2) = (fsetKind s1).bind (fun k1 => (fsetKind s2).bind (kindJoin k1)) := by
  decide

/-- No nonempty leaf class set has kind Equality. -/
lemma fset_ne_equality : ∀ s : Finset Cls, s.Nonempty → fsetKind s ≠ some .equality := by
  decide

/-- Isomorphism is a two sided identity for the join away from
Equality. -/
lemma kindJoin_iso : ∀ k : Kind, k ≠ .equality →
    kindJoin .isomorphism k = some k ∧ kindJoin k .isomorphism = some k := by decide

lemma isKind_leaf_cls (l : Optic) (h : isLeafNT l = true) (k : Kind) :
    isKind l k = clsIsKind (leafCls l) k := by
  cases l <;> simp_all [isLeafNT, leafCls]

lemma isKindAll_leaves (ls : List Optic) (h : ls.all isLeafNT = true) (k : Kind) :
    isKindAll ls k = (ls.map leafCls).all (fun c => clsIsKind c k) := by
  induction ls with
  | nil => simp
  | cons x rest ih =>
    simp only [List.all_cons, Bool.and_eq_true] at h
    simp [isKind_leaf_cls x h.1, ih h.2]

lemma all_toFinset (cs : List Cls) (k : Kind) :
    cs.all (fun c => clsIsKind c k) = kindSatB cs.toFinset k := by
  apply boolEqOfIff
  rw [List.all_eq_true, kindSatB, decide_eq_true_eq]
  constructor
  · intro h c hc
    exact h c (List.mem_toFinset.mp hc)
  · intro h c hc
    exact h c (List.mem_toFinset.mpr hc)

/-- The kind of a ComposedLens over filtered leaves depends only on the
set of element classes. -/
lemma kindOf_composed_fset (ls : List Optic) (h : ls.all isLeafNT = true) :
    kindOf (.composed ls) = fsetKind (ls.map leafCls).toFinset := by
  unfold kindOf fsetKind
  apply findqCongr
  intro k _
  rw [isKind_composed, isKindAll_leaves ls h k, all_toFinset]

/-- The kind of a leaf optic is the kind of its singleton class set. -/
lemma kindOf_leaf_fset (l : Optic) (h : isLeafNT l = true) :
    kindOf l = fsetKind {leafCls l} := by
  unfold kindOf fsetKind
  apply findqCongr
  intro k _
  rw [isKind_leaf_cls l h k]
  apply boolEqOfIff
  rw [kindSatB, decide_eq_true_eq]
  simp

lemma kindOf_trivial : kindOf .trivialIso = some .isomorphism := by
  simp [kindOf, scanKinds, List.find?, clsIsKind]

/-- Every well-formed optic is either the identity optic or contributes
a nonempty list of leaf elements whose class set determines its kind. -/
lemma elts_characterisation (X : Optic) (hX : WFopt X = true) :
    X = .trivialIso ∨
    ((elts X).all isLeafNT = true ∧ elts X ≠ [] ∧
      kindOf X = fsetKind ((elts X).map leafCls).toFinset ∧
      ((elts X).map leafCls).toFinset.Nonempty) := by
  cases X with
  | trivialIso => exact .inl rfl
  | composed ls =>
    simp only [WFopt, Bool.and_eq_true, decide_eq_true_eq] at hX
    obtain ⟨⟨hleaf, hlen⟩, -⟩ := hX
    refine .inr ⟨hleaf, ?_, kindOf_composed_fset ls hleaf, ?_⟩
    · intro hnil
      rw [show elts (.composed ls) = ls from rfl] at hnil
      subst hnil
      simp at hlen
    · cases ls with
      | nil => simp at hlen
      | cons x rest => exact ⟨leafCls x, by simp [elts]⟩
  | getter g =>
    exact .inr ⟨by simp [elts, isLeafNT], by simp [elts],
      kindOf_leaf_fset _ (by simp [isLeafNT]), by simp [elts]⟩
  | lens g p =>
    exact .inr ⟨by simp [elts, isLeafNT], by simp [elts],
      kindOf_leaf_fset _ (by simp [isLeafNT]), by simp [elts]⟩
  | review p =>
    exact .inr ⟨by simp [elts, isLeafNT], by simp [elts],
      kindOf_leaf_fset _ (by simp [isLeafNT]), by simp [elts]⟩
  | prism u p =>
    exact .inr ⟨by simp [elts, isLeafNT], by simp [elts],
      kindOf_leaf_fset _ (by simp [isLeafNT]), by simp [elts]⟩
  | iso f b =>
    exact .inr ⟨by simp [elts, isLeafNT], by simp [elts],
      kindOf_leaf_fset _ (by simp [isLeafNT]), by simp [elts]⟩
  | errorIso e =>
    exact .inr ⟨by simp [elts, isLeafNT], by simp [elts],
      kindOf_leaf_fset _ (by simp [isLeafNT]), by simp [elts]⟩

/-- No well-formed optic has kind Equality. -/
lemma wf_kind_ne_equality (X : Optic) (hX : WFopt X = true) (k : Kind)
    (hk : kindOf X = some k) : k ≠ .equality := by
  rcases elts_characterisation X hX with rfl | ⟨-, -, hkf, hns⟩
  · rw [kindOf_trivial] at hk
    intro habs
    rw [habs] at hk
    simp at hk
  · rw [hkf] at hk
    intro habs
    rw [habs] at hk
    exact fset_ne_equality _ hns hk

lemma mkFromList_long (l : List Optic) (h : 2 ≤ l.length) :
    mkFromList l = (match kindOf (.composed l) with
      | none => .error (.runtimeError "Optic has no valid type")
      | some _ => .ok (.composed l)) := by
  cases l with
  | nil => simp at h
  | cons x t =>
    cases t with
    | nil => simp at h
    | cons y r => rfl

/-- C1 (amended): capability narrowing under composition.  For
well-formed optics A and B with kinds kA and kB, the kind of
`compose(A, B)` is the LEAST UPPER BOUND (join) of kA and kB in the
subsumption ordering, and when kA and kB have no upper bound among the
nine kinds the composition raises the structural RuntimeError at
construction time. -/
theorem c1_compose_kind_join (A B : Optic) (kA kB : Kind)
    (hA : WFopt A = true) (hB : WFopt B = true)
    (hkA : kindOf A = some kA) (hkB : kindOf B = some kB) :
    (∀ k, kindJoin kA kB = some k →
      ∃ R, Optic.compose A B = .ok R ∧ kindOf R = some k) ∧
    (kindJoin kA kB = none →
      Optic.compose A B = .error (.runtimeError "Optic has no valid type")) := by
  rcases elts_characterisation A hA with rfl | ⟨hleafA, hneA, hkfA, hnsA⟩
  · -- A is the identity optic
    have hkAiso : kA = .isomorphism := by
      have h := kindOf_trivial.symm.trans hkA
      simpa using h.symm
    subst hkAiso
    have hcomp : Optic.compose .trivialIso B = .ok B := by
      rw [compose_eq _ _ hA hB]
      simp only [elts, List.nil_append]
      exact mkFromList_elts B hB
    have hj := (kindJoin_iso kB (wf_kind_ne_equality B hB kB hkB)).1
    constructor
    · intro k hk
      rw [hj] at hk
      exact ⟨B, hcomp, hk ▸ hkB⟩
    · intro hk
      rw [hj] at hk
      simp at hk
  · rcases elts_characterisation B hB with rfl | ⟨hleafB, hneB, hkfB, hnsB⟩
    · -- B is the identity optic
      have hkBiso : kB = .isomorphism := by
        have h := kindOf_trivial.symm.trans hkB
        simpa using h.symm
      subst hkBiso
      have hcomp : Optic.compose A .trivialIso = .ok A := by
        rw [compose_eq _ _ hA hB]
        simp only [elts, List.append_nil]
        exact mkFromList_elts A hA
      have hj := (kindJoin_iso kA (wf_kind_ne_equality A hA kA hkA)).2
      constructor
      · intro k hk
        rw [hj] at hk
        exact ⟨A, hcomp, hk ▸ hkA⟩
      · intro hk
        rw [hj] at hk
        simp at hk
    · -- both contribute elements
      have h1 : fsetKind ((elts A).map leafCls).toFinset = some kA := hkfA.symm.trans hkA
      have h2 : fsetKind ((elts B).map leafCls).toFinset = some kB := hkfB.symm.trans hkB
      have hlen2 : 2 ≤ (elts A ++ elts B).length := by
        have l1 : 0 < (elts A).length := List.length_pos.mpr hneA
        have l2 : 0 < (elts B).length := List.length_pos.mpr hneB
        rw [List.length_append]
        omega
      have hallAB : (elts A ++ elts B).all isLeafNT = true := by
        rw [List.all_append, hleafA, hleafB]
        rfl
      have hkun : kindOf (.composed (elts A ++ elts B)) = kindJoin kA kB := by
        rw [kindOf_composed_fset _ hallAB, List.map_append, List.toFinset_append]
        have hj := joinCoreDec _ _ hnsA hnsB
        rw [h1, h2] at hj
        exact hj
      rw [compose_eq A B hA hB, mkFromList_long _ hlen2]
      constructor
      · intro k hk
        rw [hkun, hk]
        exact ⟨.composed (elts A ++ elts B), rfl, by rw [hkun, hk]⟩
      · intro hk
        rw [hkun, hk]

/-- Counterexample to C1 as stated: composing the Getter and the Lens
of the running examples yields an optic of kind Getter, while the
greatest lower bound (lattice meet) of Getter and Lens under the
subsumption ordering of the claim is Lens, and the two differ.  The
meet of two kinds in this ordering always exists, so the claim as
stated also never allows the code to raise a StructuralKindError. -/
theorem c1_counterexample :
    Optic.compose (.getter exGet) (.lens exGet exPut)
      = .ok (.composed [.getter exGet, .lens exGet exPut]) ∧
    kindOf (.getter exGet) = some .getter ∧
    kindOf (.lens exGet exPut) = some .lens ∧
    kindOf (.composed [.getter exGet, .lens exGet exPut]) = some .getter ∧
    kindMeet .getter .lens = some .lens ∧
    Kind.getter ≠ Kind.lens := by
  refine ⟨?_, ?_, ?_, ?_, by decide, by decide⟩
  · simp [Optic.compose, composedCompose, filterLenses, mkFromList, kindOf, scanKinds,
      List.find?, clsIsKind]
  · simp [kindOf, scanKinds, List.find?, clsIsKind]
  · simp [kindOf, scanKinds, List.find?, clsIsKind]
  · simp [kindOf, scanKinds, List.find?, clsIsKind]

/-- Witness for the amended C1 at the Getter and Lens examples: their
join is Getter, and the composition succeeds with kind Getter. -/
theorem c1_compose_kind_join_witness :
    ∃ R, Optic.compose (.getter exGet) (.lens exGet exPut) = .ok R ∧
      kindOf R = some .getter := by
  have h := c1_compose_kind_join (.getter exGet) (.lens exGet exPut) .getter .lens
    (by simp [WFopt]) (by simp [WFopt])
    (by simp [kindOf, scanKinds, List.find?, clsIsKind])
    (by simp [kindOf, scanKinds, List.find?, clsIsKind])
  exact h.1 .getter (by decide)
